import Mathlib

/-
Verification of the Wikipedia top-articles pipeline (Exercise-1/run.py).

The script fetches daily top-article statistics over a date range, selects a
top-20 article set by each articles last observed view count, densifies the
per-article daily series with forward fill, and computes summary statistics.

Shallow embedding conventions:
  - calendar dates are modelled as natural numbers (days since an epoch);
    pd.date_range(start, end) becomes List.range' start (end + 1 - start);
  - a JSON payload is modelled only as far as the script inspects it:
    None / empty dict / dict without the items key / dict with an items list
    whose entries optionally carry an articles list;
  - a views cell is Option Nat (None / NaN / missing key become none);
  - float statistics are modelled over the rationals;
  - uncaught Python exceptions and the two explicit ValueError raises are
    modelled as an Except error result of the pipeline;
  - time.sleep calls are counted, not performed.
-/

/-- One entry of the articles list of a daily payload: the article identifier
and its view count, which may be absent (missing key or JSON null, which
pandas turns into NaN). -/
structure ArticleEntry where
  article : String
  views : Option Nat
deriving DecidableEq, Repr

/-- The shape of a decoded payload as far as the script inspects it.
emptyDict models a falsy decoded value, otherDict a non-empty dict without
the items key, withItems a dict whose items key holds a list; each item
optionally carries an articles list (none models a dict without that key). -/
inductive Payload where
  | emptyDict : Payload
  | otherDict : Payload
  | withItems : List (Option (List ArticleEntry)) → Payload
deriving DecidableEq, Repr

/-- Errors that terminate the pipeline: the uncaught pandas/Python errors
reachable from main (IndexError on items[0] of an empty list, KeyError on a
missing column or key, TypeError from Series.nlargest on a views column of
object dtype, which is what the column is when no non-null views value exists)
and the two explicit ValueError raises of main. Because an entry whose views
key is missing and an entry whose views value is JSON null are both modelled
as none, the typeError value also stands in for the KeyError the program
raises when no entry at all carries the views key (no views column exists). -/
inductive PyErr where
  | indexError : PyErr
  | keyError : PyErr
  | typeError : PyErr
  | noDataCollected : PyErr
  | noViewsData : PyErr
deriving DecidableEq, Repr

/-- One row of the accumulated raw data frame df: a date, an article
identifier and an optional view count. -/
structure Record where
  date : Nat
  article : String
  views : Option Nat
deriving DecidableEq, Repr

/-! ### Resilient fetcher: the function named api (double underscores) -/

/-- Outcome of a single requests.get attempt: a decoded payload, or a
RequestException / ValueError (transport failure or malformed response). -/
inductive AttemptOutcome where
  | ok : Payload → AttemptOutcome
  | err : AttemptOutcome
deriving DecidableEq, Repr

/-- The retry loop of the api function: for attempt in range(retries), try the
call; on success return the payload; on failure sleep once unless this was the
final attempt. The first component is the returned value, the second counts
the sleep calls. The fuel argument is the number of remaining iterations and
the index argument is the current attempt number. -/
def apiLoop (attempts : Nat → AttemptOutcome) (retries : Nat) :
    Nat → Nat → Nat → Option Payload × Nat
  | 0, _, sl => (none, sl)
  | rem + 1, i, sl =>
    match attempts i with
    | .ok p => (some p, sl)
    | .err => apiLoop attempts retries rem (i + 1) (if i + 1 < retries then sl + 1 else sl)

/-- The api function with a given retry count: run the loop over all attempts
starting from attempt 0 with no sleeps performed yet; if every attempt fails
it falls through the loop and returns None. -/
def apiModel (retries : Nat) (attempts : Nat → AttemptOutcome) : Option Payload × Nat :=
  apiLoop attempts retries retries 0 0

/-! ### Range collector: the day loop of main -/

/-- Processing of one fetched day inside the loop of main: skip the day when
the result is falsy or has no items key; otherwise evaluate
data[items][0][articles], which raises IndexError on an empty items list and
KeyError when the first item has no articles key. -/
def processDay : Option Payload → Except PyErr (Option (List ArticleEntry))
  | none => .ok none
  | some .emptyDict => .ok none
  | some .otherDict => .ok none
  | some (.withItems []) => .error .indexError
  | some (.withItems (none :: _)) => .error .keyError
  | some (.withItems (some arts :: _)) => .ok (some arts)

/-- Decides whether a fetched day is skipped by the guard of the loop. -/
def skipDay : Option Payload → Bool
  | none => true
  | some .emptyDict => true
  | some .otherDict => true
  | some (.withItems _) => false

/-- Decides whether a fetched day contributes a data frame (and a sleep). -/
def keptDay : Option Payload → Bool
  | some (.withItems (some _ :: _)) => true
  | _ => false

/-- The day frame a fetched day contributes, tagged with its date. -/
def frameOf (fr : Option Payload) (d : Nat) : Option (Nat × List ArticleEntry) :=
  match fr with
  | some (.withItems (some arts :: _)) => some (d, arts)
  | _ => none

/-- The collection loop of main over the remaining days, carrying the
accumulated day frames and the number of time.sleep(0.1) calls performed so
far. The sleep is executed only on the success path, after appending the day
frame; the continue of the skip branch jumps over it. An error from the day
processing aborts the whole loop. -/
def collectGo (fetch : Nat → Option Payload) :
    List Nat → List (Nat × List ArticleEntry) → Nat →
    Except PyErr (List (Nat × List ArticleEntry) × Nat)
  | [], acc, sl => .ok (acc, sl)
  | d :: ds, acc, sl =>
    match processDay (fetch d) with
    | .error e => .error e
    | .ok none => collectGo fetch ds acc sl
    | .ok (some arts) => collectGo fetch ds (acc ++ [(d, arts)]) (sl + 1)

/-- The collection phase of main over a list of days. -/
def collect (days : List Nat) (fetch : Nat → Option Payload) :
    Except PyErr (List (Nat × List ArticleEntry) × Nat) :=
  collectGo fetch days [] 0

/-- Flattening of the collected day frames into the rows of df: every article
entry of a day frame becomes one row tagged with the date of the frame. -/
def toRecords (frames : List (Nat × List ArticleEntry)) : List Record :=
  frames.flatMap (fun f => f.2.map (fun a => ⟨f.1, a.article, a.views⟩))

/-! ### Top-set selection -/

/-- Comparison of rows by date, the key of df.sort_values("date"). -/
def dateLe (r₁ r₂ : Record) : Prop := r₁.date ≤ r₂.date

instance : DecidableRel dateLe := fun r₁ r₂ => Nat.decLe r₁.date r₂.date

instance : IsTotal Record dateLe := ⟨fun r₁ r₂ => Nat.le_total r₁.date r₂.date⟩

instance : IsTrans Record dateLe := ⟨fun _ _ _ h₁ h₂ => Nat.le_trans h₁ h₂⟩

/-- The rows of df sorted by date, modelling df.sort_values("date"). -/
def sortByDate (rs : List Record) : List Record :=
  rs.insertionSort dateLe

/-- The group keys of groupby("article"): the distinct article identifiers in
ascending lexicographic order, as pandas sorts group keys. -/
def sortedArticles (rs : List Record) : List String :=
  ((rs.map (fun r => r.article)).dedup).insertionSort (· ≤ ·)

/-- The ranking key of one article: groupby("article")["views"].last() on the
date-sorted frame, i.e. the last non-null views value of the rows of the
article in date order; none when the article has no non-null views value. -/
def lastViews (rs : List Record) (a : String) : Option Nat :=
  (((sortByDate rs).filter (fun r => r.article = a)).filterMap (fun r => r.views)).getLast?

/-- The keyed portion of the series last_values: one (article, ranking key)
pair per distinct article whose ranking key is non-null, in ascending article
order (the index order of the series). These are the entries Series.nlargest
actually ranks; its NaN-keyed entries sort below every keyed one. -/
def articleKeys (rs : List Record) : List (String × Nat) :=
  (sortedArticles rs).filterMap (fun a => (lastViews rs a).map (fun v => (a, v)))

/-- The NaN-keyed portion of the series last_values: the distinct articles
whose ranking key is null, in ascending article order. Series.nlargest keeps
them after every keyed entry: the slow path (n at least the series length)
sorts descending with NaN last and takes the head, and the fast path appends
nan_index after the ranked keyed entries before truncating to n. -/
def nanKeyedArticles (rs : List Record) : List String :=
  (sortedArticles rs).filter (fun a => (lastViews rs a).isNone)

/-- Comparison of key pairs by descending views value, the order used by
nlargest. -/
def descRel (p q : String × Nat) : Prop := q.2 ≤ p.2

instance : DecidableRel descRel := fun p q => Nat.decLe q.2 p.2

instance : IsTotal (String × Nat) descRel := ⟨fun p q => Nat.le_total q.2 p.2⟩

instance : IsTrans (String × Nat) descRel := ⟨fun _ _ _ h₁ h₂ => Nat.le_trans h₂ h₁⟩

/-- Stable descending sort by views value; with keep equal to first,
Series.nlargest prioritises earlier index positions among duplicates, which is
exactly the stable sort of the key pairs. -/
def sortDesc (l : List (String × Nat)) : List (String × Nat) :=
  l.insertionSort descRel

/-- The list top_articles: the index of last_values.nlargest(20). In both
nlargest paths this is the keyed entries in stable descending key order,
followed by the NaN-keyed entries in index order as padding, truncated to 20:
with more than 20 keyed articles only the 20 largest keys survive; with fewer,
every keyed article is kept and NaN-keyed articles fill the remaining slots. -/
def topArticles (rs : List Record) : List String :=
  (((sortDesc (articleKeys rs)).map Prod.fst) ++ nanKeyedArticles rs).take 20

/-- The frame df_top: the rows of df whose article is in top_articles. -/
def dfTopOf (rs : List Record) : List Record :=
  rs.filter (fun r => (topArticles rs).contains r.article)

/-- The frame valid_views: df_top.dropna(subset=["views"]). -/
def validViews (l : List Record) : List Record :=
  l.filter (fun r => r.views.isSome)

/-! ### Densification: scaffold, left merge and forward fill -/

/-- Forward fill over the merged (date, views) rows, carrying the most recent
non-null value seen so far; a null cell is replaced by the carried value and a
non-null cell replaces it. -/
def ffill (prev : Option Nat) : List (Nat × Option Nat) → List (Nat × Option Nat)
  | [] => []
  | (d, v) :: rest =>
    match v with
    | some x => (d, some x) :: ffill (some x) rest
    | none => (d, prev) :: ffill prev rest

/-- The series built for one article by the loop of main: a scaffold with one
row per date of the full range, left-merged with the (date, views) rows of the
article (a left merge emits one row per matching right row, and a single null
row when no right row matches), then forward filled. -/
def densify (dfTop : List Record) (a : String) (s e : Nat) : List (Nat × Option Nat) :=
  let articleDf := dfTop.filter (fun r => r.article = a)
  let merged := (List.range' s (e + 1 - s)).flatMap (fun d =>
    match articleDf.filter (fun r => r.date = d) with
    | [] => [(d, (none : Option Nat))]
    | ms => ms.map (fun r => (d, r.views)))
  ffill none merged

/-- Modelled from the spec wording for claim C1 (the glossary entry on forward
fill): the most recent value before day b of a day-indexed optional value
source, scanning the days below b downward. -/
def lastKnownBelow (v : Nat → Option Nat) : Nat → Option Nat
  | 0 => none
  | b + 1 =>
    match v b with
    | some x => some x
    | none => lastKnownBelow v b

/-- The observation of a row list at one date: the views cell of the first row
carrying that date, none when no row does. -/
def obsAt (recs : List Record) (d : Nat) : Option Nat :=
  (recs.find? (fun r => r.date = d)).bind (fun r => r.views)

/-! ### Statistics -/

/-- Arithmetic mean of a list of natural counts, over the rationals. -/
def meanN (l : List Nat) : ℚ :=
  (l.map (fun n => (n : ℚ))).sum / (l.length : ℚ)

/-- Arithmetic mean of a list of rationals. -/
def meanQ (l : List ℚ) : ℚ :=
  l.sum / (l.length : ℚ)

/-- The non-null views values of the rows of one article, in row order:
the group of the article under groupby("article")["views"] after dropna. -/
def viewsOf (l : List Record) (a : String) : List Nat :=
  (l.filter (fun r => r.article = a)).filterMap (fun r => r.views)

/-- The statistic mean_views of main: the mean over the group keys of the
per-article means mean_views_by_article computed on valid_views. -/
def meanViewsStat (vv : List Record) : ℚ :=
  meanQ ((sortedArticles vv).map (fun a => meanN (viewsOf vv a)))

/-- Modelled from the spec wording for claim C3: the unweighted mean of the
per-article means, one term per distinct article, each article weighted
equally regardless of its number of observed days. -/
def specMeanOfArticleMeans (vv : List Record) : ℚ :=
  (((vv.map (fun r => r.article)).dedup).map (fun a => meanN (viewsOf vv a))).sum /
    (((vv.map (fun r => r.article)).dedup).length : ℚ)

/-- The flat mean over all observations, pooling every row with equal weight;
the statistic the script deliberately does not compute. -/
def flatMean (vv : List Record) : ℚ :=
  meanN (vv.filterMap (fun r => r.views))

/-- The statistic max_views of main over valid_views. -/
def maxViewsStat (vv : List Record) : Nat :=
  (vv.filterMap (fun r => r.views)).foldl max 0

/-- The statistic unique_articles of main: df["article"].nunique() over the
full collected frame. -/
def uniqueCount (rs : List Record) : Nat :=
  ((rs.map (fun r => r.article)).dedup).length

/-! ### The pipeline main -/

/-- The result main hands to the rendering code: the densified plot frame
(article, date, views) and the three title statistics. -/
structure MainOut where
  dfPlot : List (String × Nat × Option Nat)
  meanViews : ℚ
  maxViews : Nat
  uniqueArticles : Nat
deriving DecidableEq, Repr

/-- The pipeline body of main on validated dates start ≤ end: collect the day
range (a malformed day aborts with its Python error); raise when no day frame
was collected; evaluate the groupby (KeyError when the frame has no article
column, i.e. no rows); call nlargest on last_values, which raises TypeError
when no article has a non-null views value (the views column then has object
dtype; when the views key is absent from every entry the same line dies a step
earlier with KeyError, folded into the same model error); restrict to the top
set and densify each selected article; drop null views rows and raise when
none remain; finally assemble the plot frame and the title statistics. With at
least one keyed article the top set is non-empty, so the pd.concat of the
per-article frames always receives a non-empty list. -/
def runMain (s e : Nat) (fetch : Nat → Option Payload) : Except PyErr MainOut :=
  match collect (List.range' s (e + 1 - s)) fetch with
  | .error ex => .error ex
  | .ok (frames, _) =>
    if frames.isEmpty then .error .noDataCollected
    else if (toRecords frames).isEmpty then .error .keyError
    else if (articleKeys (toRecords frames)).isEmpty then .error .typeError
    else if (validViews (dfTopOf (toRecords frames))).isEmpty then .error .noViewsData
    else .ok ⟨(topArticles (toRecords frames)).flatMap (fun a =>
        (densify (dfTopOf (toRecords frames)) a s e).map (fun p => (a, p.1, p.2))),
      meanViewsStat (validViews (dfTopOf (toRecords frames))),
      maxViewsStat (validViews (dfTopOf (toRecords frames))),
      uniqueCount (toRecords frames)⟩

/-- Twenty-one distinct single-letter article identifiers in ascending
lexicographic order, used for the concrete top-20 restriction example. -/
def names21 : List String :=
  ["a", "b", "c", "d", "e", "f", "g", "h", "i", "j", "k",
   "l", "m", "n", "o", "p", "q", "r", "s", "t", "u"]

/-- A concrete one-day raw series with 21 distinct articles, every one with a
present views value, ranked strictly descending in name order; its top-20
selection drops exactly the smallest-keyed article u. -/
def rs21 : List Record :=
  [⟨0, "a", some 21⟩, ⟨0, "b", some 20⟩, ⟨0, "c", some 19⟩, ⟨0, "d", some 18⟩,
   ⟨0, "e", some 17⟩, ⟨0, "f", some 16⟩, ⟨0, "g", some 15⟩, ⟨0, "h", some 14⟩,
   ⟨0, "i", some 13⟩, ⟨0, "j", some 12⟩, ⟨0, "k", some 11⟩, ⟨0, "l", some 10⟩,
   ⟨0, "m", some 9⟩, ⟨0, "n", some 8⟩, ⟨0, "o", some 7⟩, ⟨0, "p", some 6⟩,
   ⟨0, "q", some 5⟩, ⟨0, "r", some 4⟩, ⟨0, "s", some 3⟩, ⟨0, "t", some 2⟩,
   ⟨0, "u", some 1⟩]

/-! ### Lemmas about the collection loop and the retry loop -/

theorem skipDay_frameOf {fr : Option Payload} (h : skipDay fr = true) (d : Nat) :
    frameOf fr d = none := by
  match fr with
  | none => rfl
  | some .emptyDict => rfl
  | some .otherDict => rfl
  | some (.withItems l) => simp [skipDay] at h

theorem collectGo_spec (fetch : Nat → Option Payload) :
    ∀ (days : List Nat) (acc : List (Nat × List ArticleEntry)) (sl : Nat),
      (∀ d ∈ days, (skipDay (fetch d) || keptDay (fetch d)) = true) →
      collectGo fetch days acc sl =
        .ok (acc ++ days.filterMap (fun d => frameOf (fetch d) d),
          sl + days.countP (fun d => keptDay (fetch d))) := by
  intro days
  induction days with
  | nil => intro acc sl _; simp [collectGo]
  | cons d ds ih =>
    intro acc sl h
    have hd : (skipDay (fetch d) || keptDay (fetch d)) = true := h d (by simp)
    have hds : ∀ x ∈ ds, (skipDay (fetch x) || keptDay (fetch x)) = true :=
      fun x hx => h x (by simp [hx])
    match hfd : fetch d with
    | none =>
      simp only [collectGo, processDay, ih acc sl hds, List.filterMap_cons, frameOf,
        List.countP_cons, keptDay, hfd]
      simp
    | some .emptyDict =>
      simp only [collectGo, processDay, ih acc sl hds, List.filterMap_cons, frameOf,
        List.countP_cons, keptDay, hfd]
      simp
    | some .otherDict =>
      simp only [collectGo, processDay, ih acc sl hds, List.filterMap_cons, frameOf,
        List.countP_cons, keptDay, hfd]
      simp
    | some (.withItems []) =>
      rw [hfd] at hd; simp [skipDay, keptDay] at hd
    | some (.withItems (none :: rest)) =>
      rw [hfd] at hd; simp [skipDay, keptDay] at hd
    | some (.withItems (some arts :: rest)) =>
      simp only [collectGo, processDay, ih _ _ hds, List.filterMap_cons, frameOf,
        List.countP_cons, keptDay, hfd, Except.ok.injEq, Prod.mk.injEq, if_true]
      exact ⟨by simp, by omega⟩

theorem collect_spec (days : List Nat) (fetch : Nat → Option Payload)
    (h : ∀ d ∈ days, (skipDay (fetch d) || keptDay (fetch d)) = true) :
    collect days fetch =
      .ok (days.filterMap (fun d => frameOf (fetch d) d),
        days.countP (fun d => keptDay (fetch d))) := by
  have := collectGo_spec fetch days [] 0 h
  simpa [collect] using this

theorem apiLoop_all_err (attempts : Nat → AttemptOutcome) (retries : Nat) :
    ∀ (rem i sl : Nat), i + rem = retries →
      (∀ j, j < retries → attempts j = .err) →
      apiLoop attempts retries rem i sl = (none, sl + (rem - 1)) := by
  intro rem
  induction rem with
  | zero => intro i sl _ _; simp [apiLoop]
  | succ rem ih =>
    intro i sl hi h
    have herr : attempts i = .err := h i (by omega)
    have step : apiLoop attempts retries (rem + 1) i sl =
        apiLoop attempts retries rem (i + 1) (if i + 1 < retries then sl + 1 else sl) := by
      simp only [apiLoop, herr]
    rw [step, ih (i + 1) _ (by omega) h]
    rcases Nat.eq_zero_or_pos rem with hrem | hrem
    · subst hrem
      have hif : ¬ (i + 1 < retries) := by omega
      rw [if_neg hif]
    · have hif : i + 1 < retries := by omega
      rw [if_pos hif]
      have harith : sl + 1 + (rem - 1) = sl + (rem + 1 - 1) := by omega
      rw [harith]

/-- C5: when every one of the configured attempts fails with a transport or
malformed-response error, the fetch function returns absent (None) rather than
raising, and performs one inter-attempt delay per failed attempt except the
final one, so retries minus one sleeps in total. -/
theorem C5_fetch_retries_exhausted (retries : Nat) (attempts : Nat → AttemptOutcome)
    (h : ∀ j, j < retries → attempts j = .err) :
    apiModel retries attempts = (none, retries - 1) := by
  have := apiLoop_all_err attempts retries retries 0 0 (by omega) h
  simpa [apiModel] using this

theorem C5_witness : apiModel 3 (fun _ => .err) = (none, 2) :=
  C5_fetch_retries_exhausted 3 (fun _ => .err) (fun _ _ => rfl)

/-- C4: when every day of the requested range is skipped (the fetch result is
absent or falsy or lacks the items key), no day frame is collected and main
terminates with the explicit total-data-loss ValueError rather than returning
an empty success; no chart is produced. -/
theorem C4_total_data_loss (s e : Nat) (fetch : Nat → Option Payload)
    (h : ∀ d ∈ List.range' s (e + 1 - s), skipDay (fetch d) = true) :
    runMain s e fetch = .error .noDataCollected := by
  have hcol := collect_spec (List.range' s (e + 1 - s)) fetch
    (fun d hd => by rw [h d hd]; rfl)
  have hnil : (List.range' s (e + 1 - s)).filterMap
      (fun d => frameOf (fetch d) d) = [] := by
    rw [List.filterMap_eq_nil_iff]
    intro d hd
    exact skipDay_frameOf (h d hd) d
  rw [hnil] at hcol
  simp [runMain, hcol]

theorem C4_witness : runMain 0 0 (fun _ => none) = .error .noDataCollected :=
  C4_total_data_loss 0 0 (fun _ => none) (fun d _ => rfl)

/-- C6 counterexample: a payload that is not absent and has the items key, yet
lacks the expected article-list structure (its items list is empty), is not
skipped; evaluating data[items][0] raises an uncaught IndexError that aborts
the collection loop, contradicting the claim that a malformed day never aborts
collection. -/
theorem C6_counterexample :
    collect [0] (fun _ => some (.withItems [])) = .error .indexError := rfl

/-- C6 amended: a day is skipped (contributing no frame, without aborting the
loop) exactly when its fetch result is absent, falsy, or lacks the items key;
when no day whose payload has a malformed items structure occurs, the loop
runs to completion and collects precisely the frames of the well-formed days.
A payload with the items key but an empty items list or a first item without
the articles key aborts the loop with an uncaught error. -/
theorem C6_skip_amended (days : List Nat) (fetch : Nat → Option Payload)
    (h : ∀ d ∈ days, (skipDay (fetch d) || keptDay (fetch d)) = true) :
    (collect days fetch).toOption.map Prod.fst =
      some (days.filterMap (fun d => frameOf (fetch d) d)) := by
  rw [collect_spec days fetch h]
  rfl

theorem C6_witness :
    (collect [0, 1] (fun d => if d = 0 then none
        else some (.withItems [some [⟨"A", some 3⟩]]))).toOption.map Prod.fst =
      some ([0, 1].filterMap (fun d =>
        frameOf ((fun d => if d = 0 then none
          else some (.withItems [some [⟨"A", some 3⟩]])) d) d)) :=
  C6_skip_amended [0, 1] _ (by decide)

/-- C9 counterexample: two consecutive days are iterated and both are skipped;
the claim demands the fixed pause between day iterations regardless of
success, but the loop reaches the sleep only on the success path, so zero
sleeps are performed instead of one or more. -/
theorem C9_counterexample :
    collect [0, 1] (fun _ => none) = .ok ([], 0) ∧ (0 : Nat) ≠ 1 :=
  ⟨rfl, by decide⟩

/-- C9 amended: the fixed pause is inserted after each successfully processed
day only; a skipped day proceeds to the next day without a pause, so the
number of sleeps equals the number of kept days, not the number of days in
the range. -/
theorem C9_pause_amended (days : List Nat) (fetch : Nat → Option Payload)
    (h : ∀ d ∈ days, (skipDay (fetch d) || keptDay (fetch d)) = true) :
    (collect days fetch).toOption.map Prod.snd =
      some (days.countP (fun d => keptDay (fetch d))) := by
  rw [collect_spec days fetch h]
  rfl

theorem C9_witness :
    (collect [0, 1] (fun d => if d = 0 then none
        else some (.withItems [some [⟨"A", some 3⟩]]))).toOption.map Prod.snd =
      some ([0, 1].countP (fun d =>
        keptDay ((fun d => if d = 0 then none
          else some (.withItems [some [⟨"A", some 3⟩]])) d))) :=
  C9_pause_amended [0, 1] _ (by decide)

/-- C7: the claim is right that the code intends a distinct no-views
diagnostic, but the code aborts before that check can ever fire. Whenever
zero rows would remain after dropping absent views, every views value of the
collected rows is null, so the views column has object dtype and the nlargest
call itself raises an uncaught TypeError (with no views column at all, the
same line raises KeyError) — before df_top, the densification and the
valid_views check are reached. The explicit no-views raise is unreachable:
any run that passes the nlargest call has a keyed article whose present rows
survive the dropna. At the failing input below (one day, one article whose
views value is null) the pipeline terminates with the TypeError, not the
distinct no-views diagnostic. -/
theorem C7_no_views_check_unreachable :
    runMain 0 0 (fun _ => some (.withItems [some [⟨"A", none⟩]])) =
      .error .typeError ∧ PyErr.typeError ≠ PyErr.noViewsData :=
  ⟨rfl, by decide⟩

/-! ### Lemmas about the densification step -/

theorem filter_date_of_find?_none {l : List Record} {d : Nat}
    (h : l.find? (fun r => r.date = d) = none) :
    l.filter (fun r => r.date = d) = [] := by
  rw [List.filter_eq_nil_iff]
  intro r hr
  exact List.find?_eq_none.mp h r hr

theorem filter_date_of_find?_some {l : List Record} {d : Nat} {r : Record}
    (hnodup : (l.map (fun r => r.date)).Nodup)
    (h : l.find? (fun r => r.date = d) = some r) :
    l.filter (fun r => r.date = d) = [r] := by
  induction l with
  | nil => simp at h
  | cons x xs ih =>
    rw [List.map_cons, List.nodup_cons] at hnodup
    by_cases hx : x.date = d
    · have hfx : decide (x.date = d) = true := by simpa using hx
      simp only [List.find?, hfx] at h
      cases h
      simp only [List.filter, hfx]
      have hrest : xs.filter (fun r => decide (r.date = d)) = [] := by
        rw [List.filter_eq_nil_iff]
        intro y hy hyd
        apply hnodup.1
        have hyd2 : y.date = d := by simpa using hyd
        rw [hx, ← hyd2]
        exact List.mem_map_of_mem (fun r => r.date) hy
      rw [hrest]
    · have hfx : decide (x.date = d) = false := by simpa using hx
      simp only [List.find?, hfx] at h
      simp only [List.filter, hfx]
      exact ih hnodup.2 h

theorem merged_eq_map {l : List Record} (hnodup : (l.map (fun r => r.date)).Nodup)
    (dates : List Nat) :
    (dates.flatMap (fun d =>
        match l.filter (fun r => r.date = d) with
        | [] => [(d, (none : Option Nat))]
        | ms => ms.map (fun r => (d, r.views)))) =
      dates.map (fun d => (d, obsAt l d)) := by
  induction dates with
  | nil => rfl
  | cons d ds ih =>
    have hhead : (match l.filter (fun r => r.date = d) with
        | [] => [(d, (none : Option Nat))]
        | ms => ms.map (fun r => (d, r.views))) = [(d, obsAt l d)] := by
      match hf : l.find? (fun r => r.date = d) with
      | none =>
        rw [filter_date_of_find?_none hf]
        simp [obsAt, hf]
      | some r =>
        rw [filter_date_of_find?_some hnodup hf]
        simp [obsAt, hf]
    rw [List.flatMap_cons, hhead, ih, List.singleton_append, List.map_cons]

theorem ffill_map_range (v : Nat → Option Nat) :
    ∀ (n s' : Nat) (prev : Option Nat), prev = lastKnownBelow v s' →
      ffill prev ((List.range' s' n).map (fun d => (d, v d))) =
        (List.range' s' n).map (fun d => (d, lastKnownBelow v (d + 1))) := by
  intro n
  induction n with
  | zero => intro s' prev _; rfl
  | succ n ih =>
    intro s' prev hprev
    rw [List.range'_succ, List.map_cons, List.map_cons]
    match hv : v s' with
    | some x =>
      have hnext : lastKnownBelow v (s' + 1) = some x := by
        simp [lastKnownBelow, hv]
      simp only [ffill]
      rw [ih (s' + 1) (some x) hnext.symm, hnext]
    | none =>
      have hnext : lastKnownBelow v (s' + 1) = lastKnownBelow v s' := by
        simp [lastKnownBelow, hv]
      simp only [ffill]
      rw [hnext, ← hprev, ih (s' + 1) prev (hprev.trans hnext.symm)]

theorem lastKnownBelow_eq_none {v : Nat → Option Nat} :
    ∀ (s : Nat), (∀ d, d < s → v d = none) → lastKnownBelow v s = none := by
  intro s
  induction s with
  | zero => intro _; rfl
  | succ s ih =>
    intro h
    have hv : v s = none := h s (Nat.lt_succ_self s)
    simp only [lastKnownBelow, hv]
    exact ih (fun d hd => h d (Nat.lt_succ_of_lt hd))

theorem obsAt_eq_none_of_lt {l : List Record} {s : Nat}
    (hlow : ∀ r ∈ l, s ≤ r.date) {d : Nat} (hd : d < s) : obsAt l d = none := by
  cases hf : l.find? (fun r => r.date = d) with
  | none => simp [obsAt, hf]
  | some r =>
    have h1 : r.date = d := by simpa using List.find?_some hf
    have h2 : s ≤ r.date := hlow r (List.mem_of_find?_eq_some hf)
    exact absurd h2 (by omega)

/-- C1: for every valid date range and every article, under the invariants the
collection phase guarantees (the rows of the article carry pairwise distinct
dates, all within the range), the densified series of the article has exactly
one row per calendar date of the closed range in ascending order, the value at
each date is the most recent known (non-null) value at or before that date,
and dates before the first known observation of the article remain absent. -/
theorem C1_dense_series_forward_fill (dfTop : List Record) (a : String) (s e : Nat)
    (hse : s ≤ e)
    (hnodup : ((dfTop.filter (fun r => r.article = a)).map (fun r => r.date)).Nodup)
    (hlow : ∀ r ∈ dfTop.filter (fun r => r.article = a), s ≤ r.date) :
    densify dfTop a s e =
      (List.range' s (e + 1 - s)).map (fun d =>
        (d, lastKnownBelow (obsAt (dfTop.filter (fun r => r.article = a))) (d + 1))) ∧
    (densify dfTop a s e).length = e + 1 - s ∧
    (densify dfTop a s e).map Prod.fst = List.range' s (e + 1 - s) := by
  have hmain : densify dfTop a s e =
      (List.range' s (e + 1 - s)).map (fun d =>
        (d, lastKnownBelow (obsAt (dfTop.filter (fun r => r.article = a))) (d + 1))) := by
    show ffill none ((List.range' s (e + 1 - s)).flatMap (fun d =>
        match (dfTop.filter (fun r => r.article = a)).filter (fun r => r.date = d) with
        | [] => [(d, (none : Option Nat))]
        | ms => ms.map (fun r => (d, r.views)))) = _
    rw [merged_eq_map hnodup]
    have hstart : (none : Option Nat) =
        lastKnownBelow (obsAt (dfTop.filter (fun r => r.article = a))) s :=
      (lastKnownBelow_eq_none s (fun d hd => obsAt_eq_none_of_lt hlow hd)).symm
    exact ffill_map_range _ (e + 1 - s) s none hstart
  refine ⟨hmain, ?_, ?_⟩
  · rw [hmain, List.length_map, List.length_range']
  · rw [hmain, List.map_map]
    have hcomp : (Prod.fst ∘ fun d => ((d : Nat),
        lastKnownBelow (obsAt (dfTop.filter (fun r => r.article = a))) (d + 1))) = id := rfl
    rw [hcomp, List.map_id]

theorem C1_witness :
    densify [⟨0, "A", some 10⟩, ⟨2, "A", some 30⟩] "A" 0 2 =
      (List.range' 0 3).map (fun d =>
        (d, lastKnownBelow (obsAt (([⟨0, "A", some 10⟩, ⟨2, "A", some 30⟩] :
          List Record).filter (fun r => r.article = "A"))) (d + 1))) ∧
    (densify [⟨0, "A", some 10⟩, ⟨2, "A", some 30⟩] "A" 0 2).length = 3 ∧
    (densify [⟨0, "A", some 10⟩, ⟨2, "A", some 30⟩] "A" 0 2).map Prod.fst =
      List.range' 0 3 :=
  C1_dense_series_forward_fill [⟨0, "A", some 10⟩, ⟨2, "A", some 30⟩] "A" 0 2
    (by decide) (by decide) (by decide)

/-! ### Lemmas about the top-set selection -/

theorem length_filterMap_eq_length_filter {α β : Type} (f : α → Option β) :
    ∀ l : List α, (l.filterMap f).length = (l.filter (fun a => (f a).isSome)).length := by
  intro l
  induction l with
  | nil => rfl
  | cons x xs ih =>
    cases hf : f x with
    | none => simp [List.filterMap_cons, List.filter_cons, hf, ih]
    | some b => simp [List.filterMap_cons, List.filter_cons, hf, ih]

theorem pair_sublist_of_pairwise {α : Type} {R : α → α → Prop}
    (hasym : ∀ u w, R u w → ¬ R w u) :
    ∀ {l : List α}, l.Pairwise R → ∀ {x y}, x ∈ l → y ∈ l → R x y →
      List.Sublist [x, y] l := by
  intro l
  induction l with
  | nil => intro _ x y hx _ _; exact absurd hx (List.not_mem_nil x)
  | cons z zs ih =>
    intro hp x y hx hy hxy
    rw [List.pairwise_cons] at hp
    rcases List.mem_cons.mp hx with rfl | hxz
    · rcases List.mem_cons.mp hy with rfl | hyz
      · exact absurd hxy (hasym _ _ hxy)
      · exact List.Sublist.cons₂ _ (List.singleton_sublist.mpr hyz)
    · rcases List.mem_cons.mp hy with rfl | hyz
      · exact absurd (hp.1 _ hxz) (hasym _ _ hxy)
      · exact List.Sublist.cons z (ih hp.2 hxz hyz hxy)

theorem mem_take_of_pair_sublist {α : Type} :
    ∀ {l : List α} {x y : α} {k : Nat}, l.Nodup → List.Sublist [x, y] l →
      y ∈ l.take k → x ∈ l.take k := by
  intro l
  induction l with
  | nil =>
    intro x y k _ hs _
    rw [List.sublist_nil] at hs
    cases hs
  | cons z zs ih =>
    intro x y k hnodup hs hy
    rw [List.nodup_cons] at hnodup
    cases k with
    | zero => simp at hy
    | succ k =>
      rw [List.take_succ_cons] at hy ⊢
      cases hs with
      | cons₂ _ h => exact List.mem_cons_self z _
      | cons _ h =>
        rcases List.mem_cons.mp hy with rfl | hy2
        · have hyzs : y ∈ zs := h.subset (by simp)
          exact absurd hyzs hnodup.1
        · exact List.mem_cons_of_mem z (ih hnodup.2 h hy2)

theorem lastViews_isSome_iff (rs : List Record) (a : String) :
    (lastViews rs a).isSome ↔ ∃ r ∈ rs, r.article = a ∧ r.views.isSome := by
  unfold lastViews
  rw [List.getLast?_isSome]
  constructor
  · intro hne
    obtain ⟨v, hv⟩ := List.exists_mem_of_ne_nil _ hne
    obtain ⟨r, hr, hrv⟩ := List.mem_filterMap.mp hv
    rw [List.mem_filter] at hr
    refine ⟨r, ?_, by simpa using hr.2, by rw [hrv]; rfl⟩
    exact (List.perm_insertionSort dateLe rs).mem_iff.mp hr.1
  · rintro ⟨r, hr, hra, hrv⟩
    intro hnil
    rw [List.filterMap_eq_nil_iff] at hnil
    have hrf : r ∈ (sortByDate rs).filter (fun r => r.article = a) := by
      rw [List.mem_filter]
      exact ⟨(List.perm_insertionSort dateLe rs).mem_iff.mpr hr, by simpa using hra⟩
    have hnone := hnil r hrf
    rw [hnone] at hrv
    simp at hrv

theorem mem_articleKeys_iff {rs : List Record} {a : String} {v : Nat} :
    (a, v) ∈ articleKeys rs ↔
      a ∈ (rs.map (fun r => r.article)).dedup ∧ lastViews rs a = some v := by
  unfold articleKeys
  rw [List.mem_filterMap]
  constructor
  · rintro ⟨x, hx, hfx⟩
    cases hlv : lastViews rs x with
    | none => rw [hlv] at hfx; simp at hfx
    | some w =>
      rw [hlv] at hfx
      simp only [Option.map_some', Option.some.injEq, Prod.mk.injEq] at hfx
      obtain ⟨hxa, hwv⟩ := hfx
      subst hxa
      subst hwv
      exact ⟨(List.perm_insertionSort (· ≤ ·) _).mem_iff.mp hx, hlv⟩
  · rintro ⟨ha, hlv⟩
    refine ⟨a, (List.perm_insertionSort (· ≤ ·) _).mem_iff.mpr ha, ?_⟩
    rw [hlv]
    rfl

theorem articleKeys_length (rs : List Record) :
    (articleKeys rs).length =
      ((rs.map (fun r => r.article)).dedup.filter
        (fun a => (lastViews rs a).isSome)).length := by
  unfold articleKeys
  rw [length_filterMap_eq_length_filter]
  have hpred : ∀ a ∈ sortedArticles rs,
      ((lastViews rs a).map (fun v => (a, v))).isSome = (lastViews rs a).isSome := by
    intro a _
    cases lastViews rs a <;> rfl
  rw [List.filter_congr hpred]
  exact ((List.perm_insertionSort (· ≤ ·) _).filter _).length_eq

theorem length_filter_isSome_add_isNone {α : Type} (f : α → Option Nat) :
    ∀ l : List α, (l.filter (fun a => (f a).isSome)).length +
      (l.filter (fun a => (f a).isNone)).length = l.length := by
  intro l
  induction l with
  | nil => rfl
  | cons x xs ih =>
    cases hf : f x <;> simp [List.filter_cons, hf] <;> omega

theorem topArticles_length (rs : List Record) :
    (topArticles rs).length = min 20 ((rs.map (fun r => r.article)).dedup.length) := by
  unfold topArticles
  rw [List.length_take, List.length_append, List.length_map]
  unfold sortDesc
  rw [(List.perm_insertionSort descRel (articleKeys rs)).length_eq, articleKeys_length]
  unfold nanKeyedArticles sortedArticles
  rw [((List.perm_insertionSort (· ≤ ·)
    ((rs.map (fun r => r.article)).dedup)).filter _).length_eq]
  rw [length_filter_isSome_add_isNone (fun a => lastViews rs a)]

theorem sortDesc_sorted (l : List (String × Nat)) : List.Sorted descRel (sortDesc l) :=
  List.sorted_insertionSort descRel l

theorem eq_fst_of_mem_map_pair {a : String} {o : Option Nat} {x : String × Nat}
    (hx : x ∈ o.map (fun v => (a, v))) : x.1 = a := by
  cases o with
  | none => simp at hx
  | some w => simp at hx; rw [← hx]

theorem articleKeys_pairwise (rs : List Record) :
    (articleKeys rs).Pairwise (fun p q => p.1 < q.1) := by
  have hnd : (sortedArticles rs).Nodup :=
    ((List.perm_insertionSort (· ≤ ·) _).nodup_iff).mpr
      ((rs.map (fun r => r.article)).nodup_dedup)
  have hsorted : List.Sorted (· ≤ ·) (sortedArticles rs) :=
    List.sorted_insertionSort _ _
  have hlt : List.Sorted (· < ·) (sortedArticles rs) := hsorted.lt_of_le hnd
  unfold articleKeys
  refine List.Pairwise.filterMap _ ?_ hlt
  intro a b hab x hx y hy
  rw [eq_fst_of_mem_map_pair hx, eq_fst_of_mem_map_pair hy]
  exact hab

theorem articleKeys_nodup (rs : List Record) : (articleKeys rs).Nodup := by
  refine (articleKeys_pairwise rs).imp ?_
  intro p q h heq
  rw [heq] at h
  exact lt_irrefl _ h

theorem sortDesc_keys_nodup (rs : List Record) : (sortDesc (articleKeys rs)).Nodup :=
  ((List.perm_insertionSort descRel _).nodup_iff).mpr (articleKeys_nodup rs)

theorem keyed_pair_mem_take {rs : List Record} {b : String} {v : Nat}
    (hb : lastViews rs b = some v) (hbtop : b ∈ topArticles rs) :
    (b, v) ∈ (sortDesc (articleKeys rs)).take 20 := by
  unfold topArticles at hbtop
  rw [List.take_append_eq_append_take] at hbtop
  rcases List.mem_append.mp hbtop with h | h
  · rw [← List.map_take] at h
    obtain ⟨p, hp, hpb⟩ := List.mem_map.mp h
    have hpk : p ∈ articleKeys rs :=
      (List.perm_insertionSort descRel _).mem_iff.mp (List.mem_of_mem_take hp)
    cases p with
    | mk x w =>
      simp only at hpb
      subst hpb
      have hlw : lastViews rs x = some w := (mem_articleKeys_iff.mp hpk).2
      rw [hb] at hlw
      cases hlw
      exact hp
  · have hb2 := List.mem_of_mem_take h
    unfold nanKeyedArticles at hb2
    rw [List.mem_filter] at hb2
    rw [hb] at hb2
    simp at hb2

theorem mem_top_of_keyed_take {rs : List Record} {a : String} {v : Nat}
    (h : (a, v) ∈ (sortDesc (articleKeys rs)).take 20) : a ∈ topArticles rs := by
  unfold topArticles
  rw [List.take_append_eq_append_take]
  apply List.mem_append_left
  rw [← List.map_take]
  exact List.mem_map_of_mem Prod.fst h

/-- C2 counterexample: a non-empty collected raw series (two days of a single
article) whose every views value is null. It has one distinct article, so the
claim demands a selected top set of size min(20, 1) = 1, but the program
never selects any set: the all-null views column has object dtype, and the
nlargest call of the selection step raises an uncaught TypeError that
terminates the pipeline. -/
theorem C2_counterexample :
    ([⟨0, "A", none⟩, ⟨1, "A", none⟩] : List Record) ≠ [] ∧
    ((([⟨0, "A", none⟩, ⟨1, "A", none⟩] : List Record).map
      (fun r => r.article)).dedup).length = 1 ∧
    runMain 0 1 (fun _ => some (.withItems [some [⟨"A", none⟩]])) =
      .error .typeError :=
  ⟨by decide, by decide, rfl⟩

/-- C2 amended: whenever the selection step executes at all — which requires
at least one article with a non-null observed views value, the all-null case
aborting earlier with the nlargest TypeError — the selected top set has size
exactly min(20, number of distinct articles in the raw series); an article has
a ranking key exactly when some of its rows carries a present views value; and
membership is determined by ranking descending on the chronologically-last
observed views value with keyless articles ranked below every keyed one: no
unselected keyed article outranks any selected keyed article, and a keyless
article is selected only as padding, after every keyed article has already
been selected. -/
theorem C2_top_set_size_and_ranking (rs : List Record) (hne : rs ≠ []) :
    (topArticles rs).length = min 20 ((rs.map (fun r => r.article)).dedup.length) ∧
    (∀ a, (lastViews rs a).isSome ↔ ∃ r ∈ rs, r.article = a ∧ r.views.isSome) ∧
    (∀ a b va vb, a ∈ topArticles rs → b ∈ (rs.map (fun r => r.article)).dedup →
      b ∉ topArticles rs → lastViews rs a = some va → lastViews rs b = some vb →
      vb ≤ va) ∧
    (∀ b, b ∈ topArticles rs → lastViews rs b = none →
      ∀ a, a ∈ (rs.map (fun r => r.article)).dedup → (lastViews rs a).isSome →
        a ∈ topArticles rs) := by
  refine ⟨topArticles_length rs, fun a => lastViews_isSome_iff rs a, ?_, ?_⟩
  · intro a b va vb hatop hbd hbtop hva hvb
    have hbmemk : (b, vb) ∈ sortDesc (articleKeys rs) :=
      (List.perm_insertionSort descRel _).mem_iff.mpr
        (mem_articleKeys_iff.mpr ⟨hbd, hvb⟩)
    have hbnottake : (b, vb) ∉ (sortDesc (articleKeys rs)).take 20 := by
      intro hmem
      exact hbtop (mem_top_of_keyed_take hmem)
    have hbdrop : (b, vb) ∈ (sortDesc (articleKeys rs)).drop 20 := by
      have hsplit := List.take_append_drop 20 (sortDesc (articleKeys rs))
      have h2 : (b, vb) ∈ (sortDesc (articleKeys rs)).take 20 ++
          (sortDesc (articleKeys rs)).drop 20 := by rw [hsplit]; exact hbmemk
      rcases List.mem_append.mp h2 with h | h
      · exact absurd h hbnottake
      · exact h
    have hatake : (a, va) ∈ (sortDesc (articleKeys rs)).take 20 :=
      keyed_pair_mem_take hva hatop
    exact (sortDesc_sorted (articleKeys rs)).rel_of_mem_take_of_mem_drop hatake hbdrop
  · intro b hbtop hbnone a hadedup hasome
    obtain ⟨va, hva⟩ := Option.isSome_iff_exists.mp hasome
    unfold topArticles at hbtop
    rw [List.take_append_eq_append_take] at hbtop
    rcases List.mem_append.mp hbtop with h | h
    · rw [← List.map_take] at h
      obtain ⟨p, hp, hpb⟩ := List.mem_map.mp h
      have hpk : p ∈ articleKeys rs :=
        (List.perm_insertionSort descRel _).mem_iff.mp (List.mem_of_mem_take hp)
      cases p with
      | mk x w =>
        simp only at hpb
        subst hpb
        have hlw : lastViews rs x = some w := (mem_articleKeys_iff.mp hpk).2
        rw [hbnone] at hlw
        cases hlw
    · have hlen : ((sortDesc (articleKeys rs)).map Prod.fst).length < 20 := by
        by_contra hge
        push_neg at hge
        have hz : 20 - ((sortDesc (articleKeys rs)).map Prod.fst).length = 0 := by omega
        rw [hz, List.take_zero] at h
        exact absurd h (List.not_mem_nil b)
      have hamem : (a, va) ∈ sortDesc (articleKeys rs) :=
        (List.perm_insertionSort descRel _).mem_iff.mpr
          (mem_articleKeys_iff.mpr ⟨hadedup, hva⟩)
      have hle : (sortDesc (articleKeys rs)).length ≤ 20 := by
        rw [List.length_map] at hlen
        omega
      have htake : (a, va) ∈ (sortDesc (articleKeys rs)).take 20 := by
        rw [List.take_of_length_le hle]
        exact hamem
      exact mem_top_of_keyed_take htake

theorem C2_witness :
    (topArticles [⟨0, "b", some 5⟩, ⟨0, "a", some 7⟩]).length =
      min 20 ((([⟨0, "b", some 5⟩, ⟨0, "a", some 7⟩] : List Record).map
        (fun r => r.article)).dedup.length) :=
  (C2_top_set_size_and_ranking [⟨0, "b", some 5⟩, ⟨0, "a", some 7⟩] (by decide)).1

/-- C10: when two articles carry the same chronologically-last views value,
the selection deterministically prefers the lexicographically earlier article
identifier: the ranking keys are indexed by the article-name-sorted group
keys, and nlargest with first-kept tie-breaking takes a stable descending
prefix, so whenever the later-named article of an equal-key pair is selected,
the earlier-named one is selected too. -/
theorem C10_tie_break_lexicographic (rs : List Record) (a b : String) (v : Nat)
    (hva : lastViews rs a = some v) (hvb : lastViews rs b = some v)
    (hab : a < b) (hbtop : b ∈ topArticles rs) : a ∈ topArticles rs := by
  have hmemdedup : ∀ c : String, (lastViews rs c).isSome →
      c ∈ (rs.map (fun r => r.article)).dedup := by
    intro c hc
    obtain ⟨r, hr, hrc, _⟩ := (lastViews_isSome_iff rs c).mp hc
    refine List.mem_dedup.mpr ?_
    rw [← hrc]
    exact List.mem_map_of_mem _ hr
  have hak : (a, v) ∈ articleKeys rs :=
    mem_articleKeys_iff.mpr ⟨hmemdedup a (by rw [hva]; rfl), hva⟩
  have hbk : (b, v) ∈ articleKeys rs :=
    mem_articleKeys_iff.mpr ⟨hmemdedup b (by rw [hvb]; rfl), hvb⟩
  have hpair : List.Sublist [(a, v), (b, v)] (articleKeys rs) :=
    pair_sublist_of_pairwise (fun _ _ h => lt_asymm h)
      (articleKeys_pairwise rs) hak hbk hab
  have hstable : List.Sublist [(a, v), (b, v)] (sortDesc (articleKeys rs)) :=
    List.pair_sublist_insertionSort (le_refl v) hpair
  have hbtake : (b, v) ∈ (sortDesc (articleKeys rs)).take 20 :=
    keyed_pair_mem_take hvb hbtop
  have hatake : (a, v) ∈ (sortDesc (articleKeys rs)).take 20 :=
    mem_take_of_pair_sublist (sortDesc_keys_nodup rs) hstable hbtake
  exact mem_top_of_keyed_take hatake

theorem str_AB_lt : ("A" : String) < "B" :=
  String.lt_iff_toList_lt.mpr (by decide)

theorem insertionSort_AB :
    List.insertionSort (· ≤ ·) (["A", "B"] : List String) = ["A", "B"] := by
  refine List.Sorted.insertionSort_eq (List.sorted_cons.mpr ⟨?_, List.sorted_singleton _⟩)
  intro b hb
  rw [List.mem_singleton] at hb
  subst hb
  exact le_of_lt str_AB_lt

theorem topArticles_tie_pair :
    topArticles [⟨0, "A", some 5⟩, ⟨0, "B", some 5⟩] = ["A", "B"] := by
  unfold topArticles articleKeys nanKeyedArticles sortedArticles
  rw [show ((([⟨0, "A", some 5⟩, ⟨0, "B", some 5⟩] : List Record).map
    (fun r => r.article)).dedup) = ["A", "B"] from by decide]
  rw [insertionSort_AB]
  decide

theorem C10_witness :
    "A" ∈ topArticles [⟨0, "A", some 5⟩, ⟨0, "B", some 5⟩] :=
  C10_tie_break_lexicographic [⟨0, "A", some 5⟩, ⟨0, "B", some 5⟩] "A" "B" 5
    (by decide) (by decide) str_AB_lt (by rw [topArticles_tie_pair]; decide)

/-! ### Lemmas about the statistics of a successful run -/

theorem runMain_ok_eq {s e : Nat} {fetch : Nat → Option Payload}
    {frames : List (Nat × List ArticleEntry)} {k : Nat} {out : MainOut}
    (hc : collect (List.range' s (e + 1 - s)) fetch = .ok (frames, k))
    (hr : runMain s e fetch = .ok out) :
    out = ⟨(topArticles (toRecords frames)).flatMap (fun a =>
        (densify (dfTopOf (toRecords frames)) a s e).map (fun p => (a, p.1, p.2))),
      meanViewsStat (validViews (dfTopOf (toRecords frames))),
      maxViewsStat (validViews (dfTopOf (toRecords frames))),
      uniqueCount (toRecords frames)⟩ := by
  unfold runMain at hr
  simp only [hc] at hr
  split_ifs at hr
  all_goals first
    | exact Except.noConfusion hr
    | exact (Except.ok.inj hr).symm

theorem meanViewsStat_eq_spec (l : List Record) :
    meanViewsStat l = specMeanOfArticleMeans l := by
  unfold meanViewsStat specMeanOfArticleMeans meanQ
  have hperm : List.Perm ((sortedArticles l).map (fun a => meanN (viewsOf l a)))
      (((l.map (fun r => r.article)).dedup).map (fun a => meanN (viewsOf l a))) :=
    (List.perm_insertionSort (· ≤ ·) _).map _
  rw [hperm.sum_eq, hperm.length_eq, List.length_map]

/-- C3: on every successful run, the reported mean statistic equals the
unweighted mean of the per-article means of views, computed over the top-set
rows with absent views dropped, and not the flat mean over all observations:
at the concrete input below, where article A has two observed days of value 10
and article B a single observed day of value 40, the per-article-means answer
(25) differs from the flat-mean answer (20). -/
theorem C3_mean_of_article_means (s e : Nat) (fetch : Nat → Option Payload)
    (frames : List (Nat × List ArticleEntry)) (k : Nat) (out : MainOut)
    (hc : collect (List.range' s (e + 1 - s)) fetch = .ok (frames, k))
    (hr : runMain s e fetch = .ok out) :
    out.meanViews = specMeanOfArticleMeans (validViews (dfTopOf (toRecords frames))) ∧
    meanViewsStat [⟨0, "A", some 10⟩, ⟨1, "A", some 10⟩, ⟨0, "B", some 40⟩] ≠
      flatMean [⟨0, "A", some 10⟩, ⟨1, "A", some 10⟩, ⟨0, "B", some 40⟩] := by
  constructor
  · rw [runMain_ok_eq hc hr]
    exact meanViewsStat_eq_spec _
  · have hsa : sortedArticles [⟨0, "A", some 10⟩, ⟨1, "A", some 10⟩, ⟨0, "B", some 40⟩] =
        ["A", "B"] := by
      unfold sortedArticles
      rw [show ((([⟨0, "A", some 10⟩, ⟨1, "A", some 10⟩, ⟨0, "B", some 40⟩] :
        List Record).map (fun r => r.article)).dedup) = ["A", "B"] from by decide]
      exact insertionSort_AB
    have hva : viewsOf [⟨0, "A", some 10⟩, ⟨1, "A", some 10⟩, ⟨0, "B", some 40⟩] "A" =
        [10, 10] := by decide
    have hvb : viewsOf [⟨0, "A", some 10⟩, ⟨1, "A", some 10⟩, ⟨0, "B", some 40⟩] "B" =
        [40] := by decide
    have hfm : ([⟨0, "A", some 10⟩, ⟨1, "A", some 10⟩, ⟨0, "B", some 40⟩] :
        List Record).filterMap (fun r => r.views) = [10, 10, 40] := by decide
    unfold meanViewsStat flatMean
    rw [hsa, hfm, List.map_cons, List.map_cons, List.map_nil, hva, hvb]
    unfold meanQ meanN
    norm_num

theorem C3_witness :
    meanViewsStat (validViews (dfTopOf (toRecords [(0, [⟨"A", some 3⟩])]))) =
      specMeanOfArticleMeans (validViews (dfTopOf (toRecords [(0, [⟨"A", some 3⟩])]))) :=
  (C3_mean_of_article_means 0 0 (fun _ => some (.withItems [some [⟨"A", some 3⟩]]))
    [(0, [⟨"A", some 3⟩])] 1
    ⟨(topArticles (toRecords [(0, [⟨"A", some 3⟩])])).flatMap (fun a =>
        (densify (dfTopOf (toRecords [(0, [⟨"A", some 3⟩])])) a 0 0).map
          (fun p : Nat × Option Nat => (a, p.1, p.2))),
      meanViewsStat (validViews (dfTopOf (toRecords [(0, [⟨"A", some 3⟩])]))),
      maxViewsStat (validViews (dfTopOf (toRecords [(0, [⟨"A", some 3⟩])]))),
      uniqueCount (toRecords [(0, [⟨"A", some 3⟩])])⟩ rfl rfl).1

theorem sorted_names21 : List.Sorted (· ≤ ·) names21 :=
  List.Pairwise.imp (fun h => String.le_iff_toList_le.mpr h)
    (by decide : List.Pairwise (fun s t : String => s.toList ≤ t.toList) names21)

theorem insertionSort_names21 :
    List.insertionSort (· ≤ ·) names21 = names21 :=
  List.Sorted.insertionSort_eq sorted_names21

theorem topArticles_rs21 : topArticles rs21 = names21.take 20 := by
  unfold topArticles articleKeys nanKeyedArticles sortedArticles
  rw [show ((rs21.map (fun r => r.article)).dedup) = names21 from by decide]
  rw [insertionSort_names21]
  decide

/-- C8: on every successful run, the reported unique article count is the
number of distinct article identifiers over the full collected raw series, not
only over the selected top set: at the concrete input below, with 21 distinct
keyed articles, the full series has 21 distinct articles while its top-20
restriction has 20 (the smallest-keyed article is cut by the restriction). -/
theorem C8_unique_count_full_series (s e : Nat) (fetch : Nat → Option Payload)
    (frames : List (Nat × List ArticleEntry)) (k : Nat) (out : MainOut)
    (hc : collect (List.range' s (e + 1 - s)) fetch = .ok (frames, k))
    (hr : runMain s e fetch = .ok out) :
    out.uniqueArticles = ((toRecords frames).map (fun r => r.article)).dedup.length ∧
    uniqueCount rs21 = 21 ∧
    uniqueCount (dfTopOf rs21) = 20 := by
  refine ⟨?_, by decide, ?_⟩
  · rw [runMain_ok_eq hc hr]
    rfl
  · unfold dfTopOf
    rw [topArticles_rs21]
    decide

theorem C8_witness :
    uniqueCount (toRecords [(0, [⟨"A", some 3⟩])]) =
      ((toRecords [(0, [⟨"A", some 3⟩])]).map (fun r => r.article)).dedup.length :=
  (C8_unique_count_full_series 0 0 (fun _ => some (.withItems [some [⟨"A", some 3⟩]]))
    [(0, [⟨"A", some 3⟩])] 1
    ⟨(topArticles (toRecords [(0, [⟨"A", some 3⟩])])).flatMap (fun a =>
        (densify (dfTopOf (toRecords [(0, [⟨"A", some 3⟩])])) a 0 0).map
          (fun p : Nat × Option Nat => (a, p.1, p.2))),
      meanViewsStat (validViews (dfTopOf (toRecords [(0, [⟨"A", some 3⟩])]))),
      maxViewsStat (validViews (dfTopOf (toRecords [(0, [⟨"A", some 3⟩])]))),
      uniqueCount (toRecords [(0, [⟨"A", some 3⟩])])⟩ rfl rfl).1
